import Mathlib

/-!
Shallow embedding of `plonky2x/src/frontend/uint/uint32.rs`: the
`U32Variable` type, its `CircuitVariable` operations (`variables`,
`from_variables`, `get`, `set`) and its `EvmVariable` operations
(`encode`, `decode`, `encode_value`, `decode_value`), together with a
small model of the circuit-builder primitives they call (`split_le`,
`le_sum`) as a constraint-emitting state machine.

Field elements are modelled as natural numbers; `% p` is the canonical
reduction of the field of order `p`.  Machine integers are natural
numbers (`u32` values are naturals below `2 ^ 32`, `u8` values naturals
below `256`).  Fallible operations (Rust `assert_eq!`, witness reads of
unassigned targets) return `Option`.
-/

/-- Rust `Variable(pub Target)`: a reference to one field element in the
constraint system, identified by its target index. -/
structure Variable where
  target : Nat
deriving DecidableEq, Repr, Inhabited

/-- Rust `BoolVariable(pub Variable)`. -/
structure BoolVariable where
  base : Variable
deriving DecidableEq, Repr, Inhabited

/-- Rust `ByteVariable(pub [BoolVariable; 8])`: eight bit variables,
most-significant bit first. -/
structure ByteVariable where
  bits : List BoolVariable
deriving DecidableEq, Repr, Inhabited

/-- Rust `U32Variable(pub Variable)`: a u32 value held in a single field
element. -/
structure U32Variable where
  base : Variable
deriving DecidableEq, Repr, Inhabited

/-- A constraint emitted by the builder.  `boolean t` asserts the value
of target `t` is 0 or 1; `sumEq t bits` asserts the value of `t` equals
the weighted sum of the bit targets, least-significant first (bit `k`
weighted `2 ^ k`). -/
inductive Constraint where
  | boolean (t : Nat)
  | sumEq (t : Nat) (bits : List Nat)
deriving DecidableEq, Repr

/-- The circuit builder's mutable state: the next fresh target index and
the constraints emitted so far. -/
structure BuilderState where
  next : Nat
  constraints : List Constraint
deriving DecidableEq, Repr

/-- Little-endian weighted sum of a list: element `k` contributes
`2 ^ k * x`. -/
def leVal (xs : List Nat) : Nat :=
  xs.foldr (fun b acc => b + 2 * acc) 0

/-- Whether a witness assignment `w` (target index to field-element
value) satisfies one constraint over the field of order `p`. -/
def Constraint.holds (p : Nat) (w : Nat → Nat) : Constraint → Prop
  | .boolean t => w t % p = 0 ∨ w t % p = 1
  | .sumEq t bits => w t % p = leVal (bits.map w) % p

instance (p : Nat) (w : Nat → Nat) (c : Constraint) : Decidable (c.holds p w) := by
  cases c <;> (unfold Constraint.holds; infer_instance)

/-- A witness satisfies a list of constraints when it satisfies each. -/
def satisfies (p : Nat) (w : Nat → Nat) (cs : List Constraint) : Prop :=
  ∀ c ∈ cs, c.holds p w

instance (p : Nat) (w : Nat → Nat) (cs : List Constraint) :
    Decidable (satisfies p w cs) := by
  unfold satisfies; infer_instance

/-- Models plonky2 `CircuitBuilder::split_le(t, n)`: mints `n` fresh bit
targets, asserts each is boolean, and asserts their little-endian
weighted sum equals target `t` (the range check). -/
def split_le (t n : Nat) (s : BuilderState) : List Nat × BuilderState :=
  let bits := (List.range n).map (fun k => s.next + k)
  (bits,
    { next := s.next + n,
      constraints := s.constraints ++ bits.map Constraint.boolean
        ++ [Constraint.sumEq t bits] })

/-- Models plonky2 `CircuitBuilder::le_sum(bits)`: mints one fresh
target and asserts it equals the little-endian weighted sum of the
given bit targets.  No booleanity is asserted here. -/
def le_sum (bits : List Nat) (s : BuilderState) : Nat × BuilderState :=
  (s.next,
    { next := s.next + 1,
      constraints := s.constraints ++ [Constraint.sumEq s.next bits] })

/-- Models `builder._false()`: a constant-false bit variable used only
to initialize the byte array in `encode`; every slot is overwritten. -/
def falseBit : BoolVariable := ⟨⟨0⟩⟩

/-- Rust `U32Variable::variables`: `vec![self.0]`. -/
def U32Variable.variables (x : U32Variable) : List Variable :=
  [x.base]

/-- Rust `U32Variable::from_variables`: `assert_eq!(variables.len(), 1);
Self(variables[0])`.  The assertion failure is modelled as `none`. -/
def U32Variable.from_variables (vs : List Variable) : Option U32Variable :=
  if vs.length = 1 then some ⟨vs.getD 0 default⟩ else none

/-- Rust `U32Variable::get`: read the target's field element from the
witness (fails when unassigned) and return
`to_canonical_u64() as u32`, i.e. the canonical representative
truncated to its low 32 bits. -/
def U32Variable.get (p : Nat) (x : U32Variable) (w : Nat → Option Nat) :
    Option Nat :=
  (w x.base.target).map (fun f => f % p % 2 ^ 32)

/-- Rust `U32Variable::set`: write `F::from_canonical_u32(value)` to the
variable's single target. -/
def U32Variable.set (p : Nat) (x : U32Variable) (w : Nat → Option Nat)
    (value : Nat) : Nat → Option Nat :=
  fun u => if u = x.base.target then some (value % p) else w u

/-- Rust `U32Variable::encode`: split the backing target into 32 bits
(LSB first), then for `i` in `(0..4).rev()` take bit group
`bits[i*8..(i+1)*8]`, reverse it into an 8-slot array initialized with
`_false()`, and push the resulting byte. -/
def U32Variable.encode (x : U32Variable) (s : BuilderState) :
    List ByteVariable × BuilderState :=
  let r := split_le x.base.target 32 s
  let bits := r.1
  let bytes := (List.range 4).reverse.foldl
    (fun bytes i =>
      let arr : List BoolVariable := List.replicate 8 falseBit
      let byte := (bits.drop (i * 8)).take 8
      let arr := byte.reverse.enum.foldl
        (fun arr p => arr.set p.1 ⟨⟨p.2⟩⟩) arr
      bytes ++ [ByteVariable.mk arr])
    []
  (bytes, r.2)

/-- Rust `U32Variable::decode`: `assert_eq!(bytes.len(), 4)` (modelled
as `none`), concatenate the bytes' bits, reverse the whole list into
LSB-first order and feed it to `le_sum`. -/
def U32Variable.decode (bytes : List ByteVariable) (s : BuilderState) :
    Option (U32Variable × BuilderState) :=
  if bytes.length = 4 then
    let bits := bytes.foldl (fun acc byte => acc ++ byte.bits) []
    let r := le_sum (bits.reverse.map (fun bit => bit.base.target)) s
    some (⟨⟨r.1⟩⟩, r.2)
  else
    none

/-- Rust `U32Variable::encode_value`: `bytes[i] = ((value >>
((4 - i - 1) * 8)) & 0xff) as u8` over a `vec![0_u8; 4]`. -/
def U32Variable.encode_value (value : Nat) : List Nat :=
  (List.range 4).foldl
    (fun bytes i => bytes.set i ((value >>> ((4 - i - 1) * 8)) &&& 0xff))
    (List.replicate 4 0)

/-- Rust `U32Variable::decode_value`: `assert_eq!(bytes.len(), 4)`
(modelled as `none`), then `value |= (bytes[i] as u32) <<
((4 - i - 1) * 8)` starting from `0_u32`. -/
def U32Variable.decode_value (bytes : List Nat) : Option Nat :=
  if bytes.length = 4 then
    some ((List.range 4).foldl
      (fun value i => value ||| (bytes.getD i 0 <<< ((4 - i - 1) * 8)))
      0)
  else
    none

theorem encode_value_eq (v : Nat) :
    U32Variable.encode_value v =
      [v >>> 24 &&& 255, v >>> 16 &&& 255, v >>> 8 &&& 255, v &&& 255] := rfl

theorem decode_value_eq (b0 b1 b2 b3 : Nat) :
    U32Variable.decode_value [b0, b1, b2, b3] =
      some (((0 ||| b0 <<< 24) ||| b1 <<< 16 ||| b2 <<< 8) ||| b3 <<< 0) := rfl

theorem or4_eq_sum (b0 b1 b2 b3 : Nat) (h0 : b0 < 256) (h1 : b1 < 256)
    (h2 : b2 < 256) (h3 : b3 < 256) :
    ((0 ||| b0 <<< 24) ||| b1 <<< 16 ||| b2 <<< 8) ||| b3 <<< 0 =
      2 ^ 24 * b0 + 2 ^ 16 * b1 + 2 ^ 8 * b2 + b3 := by
  have e8 : (2 : Nat) ^ 8 = 256 := by norm_num
  have e16 : (2 : Nat) ^ 16 = 65536 := by norm_num
  have e24 : (2 : Nat) ^ 24 = 16777216 := by norm_num
  have s1 : b0 <<< 24 ||| b1 <<< 16 = 2 ^ 24 * b0 + 2 ^ 16 * b1 := by
    have hb : 2 ^ 16 * b1 < 2 ^ 24 := by rw [e16, e24]; omega
    rw [Nat.shiftLeft_eq, Nat.shiftLeft_eq, Nat.mul_comm b0, Nat.mul_comm b1]
    exact (Nat.mul_add_lt_is_or hb b0).symm
  have s2 : 2 ^ 24 * b0 + 2 ^ 16 * b1 ||| b2 <<< 8 =
      2 ^ 24 * b0 + 2 ^ 16 * b1 + 2 ^ 8 * b2 := by
    have hb : 2 ^ 8 * b2 < 2 ^ 16 := by rw [e8, e16]; omega
    rw [Nat.shiftLeft_eq, Nat.mul_comm b2]
    calc 2 ^ 24 * b0 + 2 ^ 16 * b1 ||| 2 ^ 8 * b2
        = 2 ^ 16 * (2 ^ 8 * b0 + b1) ||| 2 ^ 8 * b2 := by ring_nf
      _ = 2 ^ 16 * (2 ^ 8 * b0 + b1) + 2 ^ 8 * b2 :=
          (Nat.mul_add_lt_is_or hb _).symm
      _ = 2 ^ 24 * b0 + 2 ^ 16 * b1 + 2 ^ 8 * b2 := by ring
  have s3 : 2 ^ 24 * b0 + 2 ^ 16 * b1 + 2 ^ 8 * b2 ||| b3 <<< 0 =
      2 ^ 24 * b0 + 2 ^ 16 * b1 + 2 ^ 8 * b2 + b3 := by
    have hb : b3 < 2 ^ 8 := by rw [e8]; omega
    rw [Nat.shiftLeft_zero]
    calc 2 ^ 24 * b0 + 2 ^ 16 * b1 + 2 ^ 8 * b2 ||| b3
        = 2 ^ 8 * (2 ^ 16 * b0 + 2 ^ 8 * b1 + b2) ||| b3 := by ring_nf
      _ = 2 ^ 8 * (2 ^ 16 * b0 + 2 ^ 8 * b1 + b2) + b3 :=
          (Nat.mul_add_lt_is_or hb _).symm
      _ = 2 ^ 24 * b0 + 2 ^ 16 * b1 + 2 ^ 8 * b2 + b3 := by ring
  rw [Nat.zero_or, s1, s2, s3]

theorem and255_eq_mod (a : Nat) : a &&& 255 = a % 256 := by
  have := Nat.and_pow_two_sub_one_eq_mod a 8
  norm_num at this
  exact this

/-- C1: `encode_value` returns exactly 4 bytes, byte `i` equals
`(v >>> (8*(3-i))) &&& 0xFF` (the big-endian byte representation), and
the three concrete vectors from the spec hold. -/
theorem encode_value_big_endian (v : Nat) (hv : v < 2 ^ 32)
    (i : Nat) (hi : i < 4) :
    (U32Variable.encode_value v).length = 4 ∧
    (U32Variable.encode_value v).getD i 0 = v >>> (8 * (3 - i)) &&& 0xFF ∧
    U32Variable.encode_value 0x12345678 = [0x12, 0x34, 0x56, 0x78] ∧
    U32Variable.encode_value 0 = [0, 0, 0, 0] ∧
    U32Variable.encode_value 0xFFFFFFFF = [0xFF, 0xFF, 0xFF, 0xFF] := by
  refine ⟨rfl, ?_, by decide, by decide, by decide⟩
  interval_cases i <;> rfl

/-- C1 witness: the theorem evaluated at `v = 0x12345678`, `i = 1`. -/
theorem encode_value_big_endian_witness :
    0x12345678 < 2 ^ 32 ∧ (1 : Nat) < 4 ∧
    ((U32Variable.encode_value 0x12345678).length = 4 ∧
     (U32Variable.encode_value 0x12345678).getD 1 0 =
        0x12345678 >>> (8 * (3 - 1)) &&& 0xFF ∧
     U32Variable.encode_value 0x12345678 = [0x12, 0x34, 0x56, 0x78] ∧
     U32Variable.encode_value 0 = [0, 0, 0, 0] ∧
     U32Variable.encode_value 0xFFFFFFFF = [0xFF, 0xFF, 0xFF, 0xFF]) :=
  ⟨by decide, by decide,
    encode_value_big_endian 0x12345678 (by decide) 1 (by decide)⟩

/-- C2: for every u32 value `v`, `decode_value (encode_value v) = v`. -/
theorem decode_encode_value_roundtrip (v : Nat) (hv : v < 2 ^ 32) :
    U32Variable.decode_value (U32Variable.encode_value v) = some v := by
  rw [encode_value_eq, decode_value_eq]
  congr 1
  rw [and255_eq_mod, and255_eq_mod, and255_eq_mod, and255_eq_mod,
    or4_eq_sum _ _ _ _ (Nat.mod_lt _ (by norm_num)) (Nat.mod_lt _ (by norm_num))
      (Nat.mod_lt _ (by norm_num)) (Nat.mod_lt _ (by norm_num)),
    Nat.shiftRight_eq_div_pow, Nat.shiftRight_eq_div_pow,
    Nat.shiftRight_eq_div_pow]
  have e8 : (2 : Nat) ^ 8 = 256 := by norm_num
  have e16 : (2 : Nat) ^ 16 = 65536 := by norm_num
  have e24 : (2 : Nat) ^ 24 = 16777216 := by norm_num
  have e32 : (2 : Nat) ^ 32 = 4294967296 := by norm_num
  rw [e32] at hv
  rw [e8, e16, e24]
  omega

/-- C2 witness: the theorem evaluated at `v = 0x12345678`. -/
theorem decode_encode_value_roundtrip_witness :
    0x12345678 < 2 ^ 32 ∧
    U32Variable.decode_value (U32Variable.encode_value 0x12345678) =
      some 0x12345678 :=
  ⟨by decide, decode_encode_value_roundtrip 0x12345678 (by decide)⟩

/-- C9: for every 4-byte sequence (entries below 256),
`encode_value (decode_value b) = b`. -/
theorem encode_decode_value_roundtrip (bs : List Nat) (h4 : bs.length = 4)
    (hb : ∀ b ∈ bs, b < 256) :
    (U32Variable.decode_value bs).map U32Variable.encode_value = some bs := by
  obtain ⟨b0, b1, b2, b3, rfl⟩ : ∃ b0 b1 b2 b3, bs = [b0, b1, b2, b3] := by
    rcases bs with _ | ⟨b0, _ | ⟨b1, _ | ⟨b2, _ | ⟨b3, _ | ⟨b4, t⟩⟩⟩⟩⟩ <;>
        simp only [List.length_nil, List.length_cons] at h4 <;>
      first
        | omega
        | exact ⟨b0, b1, b2, b3, rfl⟩
  have h0 : b0 < 256 := hb b0 (by simp)
  have h1 : b1 < 256 := hb b1 (by simp)
  have h2 : b2 < 256 := hb b2 (by simp)
  have h3 : b3 < 256 := hb b3 (by simp)
  rw [decode_value_eq, Option.map_some', or4_eq_sum b0 b1 b2 b3 h0 h1 h2 h3,
    encode_value_eq]
  congr 1
  simp only [and255_eq_mod, Nat.shiftRight_eq_div_pow, List.cons.injEq,
    and_true]
  have e8 : (2 : Nat) ^ 8 = 256 := by norm_num
  have e16 : (2 : Nat) ^ 16 = 65536 := by norm_num
  have e24 : (2 : Nat) ^ 24 = 16777216 := by norm_num
  rw [e8, e16, e24]
  omega

/-- C9 witness: the theorem evaluated at `b = [0x12, 0x34, 0x56, 0x78]`. -/
theorem encode_decode_value_roundtrip_witness :
    ([0x12, 0x34, 0x56, 0x78] : List Nat).length = 4 ∧
    (∀ b ∈ ([0x12, 0x34, 0x56, 0x78] : List Nat), b < 256) ∧
    (U32Variable.decode_value [0x12, 0x34, 0x56, 0x78]).map
      U32Variable.encode_value = some [0x12, 0x34, 0x56, 0x78] :=
  ⟨by decide, by decide,
    encode_decode_value_roundtrip [0x12, 0x34, 0x56, 0x78] (by decide)
      (by decide)⟩

/-- C5: the in-circuit `decode` and the plain `decode_value` fail
exactly when the byte-sequence length is not 4; on length 4 neither
fails. -/
theorem decode_arity (bytes : List ByteVariable) (s : BuilderState)
    (bs : List Nat) :
    ((U32Variable.decode bytes s).isSome ↔ bytes.length = 4) ∧
    ((U32Variable.decode_value bs).isSome ↔ bs.length = 4) := by
  constructor
  · by_cases h : bytes.length = 4 <;> simp [U32Variable.decode, h]
  · by_cases h : bs.length = 4 <;> simp [U32Variable.decode_value, h]

/-- C7: `variables` has length exactly 1, `from_variables` succeeds
exactly on length-1 input, and `from_variables (variables x) = x`. -/
theorem variables_from_variables (x : U32Variable) (vs : List Variable) :
    (U32Variable.variables x).length = 1 ∧
    ((U32Variable.from_variables vs).isSome ↔ vs.length = 1) ∧
    U32Variable.from_variables (U32Variable.variables x) = some x := by
  refine ⟨rfl, ?_, rfl⟩
  by_cases h : vs.length = 1 <;> simp [U32Variable.from_variables, h]

/-- C6: for a field with more than `2 ^ 32` elements, `get` after `set`
on the same variable returns exactly the value that was set. -/
theorem get_set_roundtrip (p : Nat) (hp : 2 ^ 32 < p) (x : U32Variable)
    (w : Nat → Option Nat) (v : Nat) (hv : v < 2 ^ 32) :
    U32Variable.get p x (U32Variable.set p x w v) = some v := by
  have h1 : v % p = v := Nat.mod_eq_of_lt (by omega)
  have h2 : v % 2 ^ 32 = v := Nat.mod_eq_of_lt hv
  unfold U32Variable.get U32Variable.set
  show (if x.base.target = x.base.target then some (v % p)
    else w x.base.target).map (fun f => f % p % 2 ^ 32) = some v
  rw [if_pos rfl, Option.map_some', h1, h1, h2]

/-- C6 witness: the theorem evaluated at the Goldilocks order,
target 5 and `v = 0x12345678`. -/
theorem get_set_roundtrip_witness :
    2 ^ 32 < 18446744069414584321 ∧ 0x12345678 < 2 ^ 32 ∧
    U32Variable.get 18446744069414584321 ⟨⟨5⟩⟩
      (U32Variable.set 18446744069414584321 ⟨⟨5⟩⟩ (fun _ => none) 0x12345678)
      = some 0x12345678 :=
  ⟨by decide, by decide,
    get_set_roundtrip 18446744069414584321 (by decide) ⟨⟨5⟩⟩ (fun _ => none)
      0x12345678 (by decide)⟩

/-- C8: `get` never fails on an assigned target and performs no range
check: it returns the canonical representative truncated modulo
`2 ^ 32`. -/
theorem get_truncates_no_range_check (p : Nat) (x : U32Variable)
    (w : Nat → Option Nat) (f : Nat) (ha : w x.base.target = some f)
    (hf : f < p) :
    U32Variable.get p x w = some (f % 2 ^ 32) := by
  unfold U32Variable.get
  rw [ha, Option.map_some', Nat.mod_eq_of_lt hf]

/-- C8 witness: an assigned field element `2 ^ 32 + 5` (out of u32
range) is silently truncated to 5. -/
theorem get_truncates_no_range_check_witness :
    (fun t => if t = 5 then some 4294967301 else none) 5 = some 4294967301 ∧
    4294967301 < 18446744069414584321 ∧
    U32Variable.get 18446744069414584321 ⟨⟨5⟩⟩
      (fun t => if t = 5 then some 4294967301 else none)
      = some (4294967301 % 2 ^ 32) :=
  ⟨by decide, by decide,
    get_truncates_no_range_check 18446744069414584321 ⟨⟨5⟩⟩
      (fun t => if t = 5 then some 4294967301 else none) 4294967301
      (by decide) (by decide)⟩

/-- C10: `set` writes only the witness entry of its own backing target;
every other target's entry is unchanged. -/
theorem set_frame (p : Nat) (x : U32Variable) (w : Nat → Option Nat)
    (v t : Nat) (h : t ≠ x.base.target) :
    U32Variable.set p x w v t = w t := by
  unfold U32Variable.set
  simp [h]

/-- C10 witness: the theorem evaluated at target 5, reading back the
unrelated target 7. -/
theorem set_frame_witness :
    (7 : Nat) ≠ 5 ∧
    U32Variable.set 18446744069414584321 ⟨⟨5⟩⟩ (fun u => some u) 99 7 = some 7 :=
  ⟨by decide,
    set_frame 18446744069414584321 ⟨⟨5⟩⟩ (fun u => some u) 99 7 (by decide)⟩

theorem encode_result (x : U32Variable) (s : BuilderState) :
    U32Variable.encode x s =
      ([⟨[⟨⟨s.next + 31⟩⟩, ⟨⟨s.next + 30⟩⟩, ⟨⟨s.next + 29⟩⟩, ⟨⟨s.next + 28⟩⟩,
          ⟨⟨s.next + 27⟩⟩, ⟨⟨s.next + 26⟩⟩, ⟨⟨s.next + 25⟩⟩, ⟨⟨s.next + 24⟩⟩]⟩,
        ⟨[⟨⟨s.next + 23⟩⟩, ⟨⟨s.next + 22⟩⟩, ⟨⟨s.next + 21⟩⟩, ⟨⟨s.next + 20⟩⟩,
          ⟨⟨s.next + 19⟩⟩, ⟨⟨s.next + 18⟩⟩, ⟨⟨s.next + 17⟩⟩, ⟨⟨s.next + 16⟩⟩]⟩,
        ⟨[⟨⟨s.next + 15⟩⟩, ⟨⟨s.next + 14⟩⟩, ⟨⟨s.next + 13⟩⟩, ⟨⟨s.next + 12⟩⟩,
          ⟨⟨s.next + 11⟩⟩, ⟨⟨s.next + 10⟩⟩, ⟨⟨s.next + 9⟩⟩, ⟨⟨s.next + 8⟩⟩]⟩,
        ⟨[⟨⟨s.next + 7⟩⟩, ⟨⟨s.next + 6⟩⟩, ⟨⟨s.next + 5⟩⟩, ⟨⟨s.next + 4⟩⟩,
          ⟨⟨s.next + 3⟩⟩, ⟨⟨s.next + 2⟩⟩, ⟨⟨s.next + 1⟩⟩, ⟨⟨s.next + 0⟩⟩]⟩],
       { next := s.next + 32,
         constraints := s.constraints
           ++ (List.range 32).map (fun k => Constraint.boolean (s.next + k))
           ++ [Constraint.sumEq x.base.target
                 ((List.range 32).map (fun k => s.next + k))] }) := rfl

theorem decode_encode_shape (x : U32Variable) (s : BuilderState) :
    U32Variable.decode (U32Variable.encode x s).1 (U32Variable.encode x s).2 =
      some (⟨⟨s.next + 32⟩⟩,
        { next := s.next + 33,
          constraints := s.constraints
            ++ (List.range 32).map (fun k => Constraint.boolean (s.next + k))
            ++ [Constraint.sumEq x.base.target
                  ((List.range 32).map (fun k => s.next + k))]
            ++ [Constraint.sumEq (s.next + 32)
                  ((List.range 32).map (fun k => s.next + k))] }) := rfl

theorem leVal_nil : leVal [] = 0 := rfl

theorem leVal_cons (x : Nat) (l : List Nat) :
    leVal (x :: l) = x + 2 * leVal l := rfl

theorem leVal_append_singleton (xs : List Nat) (b : Nat) :
    leVal (xs ++ [b]) = leVal xs + 2 ^ xs.length * b := by
  induction xs with
  | nil => simp [leVal_cons, leVal_nil]
  | cons x l ih =>
    rw [List.cons_append, leVal_cons, ih, leVal_cons, List.length_cons,
      pow_succ]
    ring

theorem leVal_range_bits (v n : Nat) :
    leVal ((List.range n).map (fun k => v >>> k % 2)) = v % 2 ^ n := by
  induction n with
  | zero => simp [leVal_nil, Nat.mod_one]
  | succ n ih =>
    rw [List.range_succ, List.map_append, List.map_cons, List.map_nil,
      leVal_append_singleton, ih, List.length_map, List.length_range,
      Nat.shiftRight_eq_div_pow, pow_succ]
    exact Nat.mod_mul.symm

/-- An assignment showing the constraints emitted by `encode` followed
by `decode` are satisfiable for any u32 value `v`: the original target
`xt` and the recombined target `n + 32` hold `v`, and the bit targets
`n + k` hold the bits of `v`. -/
def roundtripWitness (xt n v : Nat) : Nat → Nat :=
  fun t =>
    if t = xt then v
    else if t = n + 32 then v
    else if n ≤ t then v >>> (t - n) % 2
    else 0

/-- C3: in-circuit `encode` yields exactly 4 bytes of 8 bits each;
output byte `i`'s bit `j` is the bit at position `8*(3-i) + (7-j)` of
the LSB-first 32-bit decomposition (whose fresh bit targets are
`s.next + k` for position `k`), i.e. big-endian at the byte level and
MSB-first within each byte; and the decomposition constrains exactly 32
boolean bits whose LSB-first weighted sum equals the backing target. -/
theorem encode_bit_layout (x : U32Variable) (s : BuilderState)
    (i j : Nat) (hi : i < 4) (hj : j < 8) :
    (U32Variable.encode x s).1.length = 4 ∧
    ((U32Variable.encode x s).1.getD i default).bits.length = 8 ∧
    (((U32Variable.encode x s).1.getD i default).bits.getD j
        falseBit).base.target = s.next + (8 * (3 - i) + (7 - j)) ∧
    (U32Variable.encode x s).2.constraints
        = s.constraints
          ++ (List.range 32).map (fun k => Constraint.boolean (s.next + k))
          ++ [Constraint.sumEq x.base.target
                ((List.range 32).map (fun k => s.next + k))] := by
  refine ⟨rfl, ?_, ?_, rfl⟩
  · interval_cases i <;> rfl
  · interval_cases i <;> interval_cases j <;> rfl

/-- C3 witness: the theorem evaluated at target 0, fresh counter 1,
byte index 2, bit index 3. -/
theorem encode_bit_layout_witness :
    (2 : Nat) < 4 ∧ (3 : Nat) < 8 ∧
    ((U32Variable.encode ⟨⟨0⟩⟩ ⟨1, []⟩).1.length = 4 ∧
     ((U32Variable.encode ⟨⟨0⟩⟩ ⟨1, []⟩).1.getD 2 default).bits.length = 8 ∧
     (((U32Variable.encode ⟨⟨0⟩⟩ ⟨1, []⟩).1.getD 2 default).bits.getD 3
         falseBit).base.target = 1 + (8 * (3 - 2) + (7 - 3)) ∧
     (U32Variable.encode ⟨⟨0⟩⟩ ⟨1, []⟩).2.constraints
         = [] ++ (List.range 32).map (fun k => Constraint.boolean (1 + k))
           ++ [Constraint.sumEq 0 ((List.range 32).map (fun k => 1 + k))]) :=
  ⟨by decide, by decide,
    encode_bit_layout ⟨⟨0⟩⟩ ⟨1, []⟩ 2 3 (by decide) (by decide)⟩

/-- C4: the in-circuit round trip `decode (encode x)` succeeds and, as
a constraint-system identity, equals `x`: every witness satisfying the
emitted constraints assigns the decoded target and the original target
the same field element; and for every valid u32 value `v` the emitted
constraints are satisfiable with `x` carrying `v`. -/
theorem decode_encode_circuit_roundtrip (p : Nat) (hp : 2 ^ 32 < p)
    (x : U32Variable) (s : BuilderState) (hx : x.base.target < s.next)
    (v : Nat) (hv : v < 2 ^ 32) :
    ∃ y s2 delta,
      U32Variable.decode (U32Variable.encode x s).1 (U32Variable.encode x s).2
        = some (y, s2) ∧
      s2.constraints = s.constraints ++ delta ∧
      (∀ w : Nat → Nat, satisfies p w s2.constraints →
        w y.base.target % p = w x.base.target % p) ∧
      (∃ w : Nat → Nat, w x.base.target = v ∧ satisfies p w delta) := by
  refine ⟨⟨⟨s.next + 32⟩⟩,
    { next := s.next + 33,
      constraints := s.constraints
        ++ (List.range 32).map (fun k => Constraint.boolean (s.next + k))
        ++ [Constraint.sumEq x.base.target
              ((List.range 32).map (fun k => s.next + k))]
        ++ [Constraint.sumEq (s.next + 32)
              ((List.range 32).map (fun k => s.next + k))] },
    (List.range 32).map (fun k => Constraint.boolean (s.next + k))
      ++ [Constraint.sumEq x.base.target
            ((List.range 32).map (fun k => s.next + k))]
      ++ [Constraint.sumEq (s.next + 32)
            ((List.range 32).map (fun k => s.next + k))],
    decode_encode_shape x s, by simp [List.append_assoc], ?_, ?_⟩
  · intro w hw
    have h1 := hw (Constraint.sumEq x.base.target
      ((List.range 32).map (fun k => s.next + k))) (by simp)
    have h2 := hw (Constraint.sumEq (s.next + 32)
      ((List.range 32).map (fun k => s.next + k))) (by simp)
    exact h2.trans h1.symm
  · refine ⟨roundtripWitness x.base.target s.next v, by simp [roundtripWitness], ?_⟩
    have hm : ((List.range 32).map (fun k => s.next + k)).map
        (roundtripWitness x.base.target s.next v)
        = (List.range 32).map (fun k => v >>> k % 2) := by
      rw [List.map_map]
      refine List.map_congr_left ?_
      intro k hk
      simp only [List.mem_range] at hk
      show roundtripWitness x.base.target s.next v (s.next + k) = v >>> k % 2
      unfold roundtripWitness
      rw [if_neg (by omega), if_neg (by omega), if_pos (by omega),
        Nat.add_sub_cancel_left]
    intro c hc
    simp only [List.append_assoc, List.mem_append, List.mem_map,
      List.mem_range, List.mem_singleton] at hc
    rcases hc with ⟨k, hk, rfl⟩ | rfl | rfl
    · simp only [Constraint.holds]
      unfold roundtripWitness
      rw [if_neg (by omega), if_neg (by omega), if_pos (by omega)]
      rw [Nat.mod_eq_of_lt (by
        have : v >>> (s.next + k - s.next) % 2 < 2 := Nat.mod_lt _ (by norm_num)
        omega)]
      have : v >>> (s.next + k - s.next) % 2 < 2 := Nat.mod_lt _ (by norm_num)
      omega
    · simp only [Constraint.holds]
      rw [hm, leVal_range_bits, Nat.mod_eq_of_lt hv]
      unfold roundtripWitness
      rw [if_pos rfl]
    · simp only [Constraint.holds]
      rw [hm, leVal_range_bits, Nat.mod_eq_of_lt hv]
      unfold roundtripWitness
      rw [if_neg (by omega), if_pos rfl]

/-- C4 witness: the theorem evaluated at `p = 2^32 + 15`, a variable on
target 0 with fresh counter 1, and `v = 5`. -/
theorem decode_encode_circuit_roundtrip_witness :
    2 ^ 32 < 4294967311 ∧ (0 : Nat) < 1 ∧ 5 < 2 ^ 32 ∧
    (∃ y s2 delta,
      U32Variable.decode (U32Variable.encode ⟨⟨0⟩⟩ ⟨1, []⟩).1
          (U32Variable.encode ⟨⟨0⟩⟩ ⟨1, []⟩).2 = some (y, s2) ∧
      s2.constraints = [] ++ delta ∧
      (∀ w : Nat → Nat, satisfies 4294967311 w s2.constraints →
        w y.base.target % 4294967311 = w 0 % 4294967311) ∧
      (∃ w : Nat → Nat, w 0 = 5 ∧ satisfies 4294967311 w delta)) :=
  ⟨by decide, by decide, by decide,
    decode_encode_circuit_roundtrip 4294967311 (by decide) ⟨⟨0⟩⟩ ⟨1, []⟩
      (by decide) 5 (by decide)⟩
